import Mathlib

/-!
Shallow embedding of the SVG-to-Ruida compiler (`src/svg2rd.py`) and proofs
about it.  Python floats are modelled as exact rationals (`ℚ`); a Python
function that can raise is modelled as returning `Option` (with `none` for a
raised exception).  Trigonometric library calls (`math.cos`, `math.sin`,
`math.pi`) and the external `svg.path` segment parser are seams: the walker is
parameterised over them, and the circle/ellipse flatteners are generic over
the coordinate field so that they can be instantiated with the exact real
`Real.cos` / `Real.sin` for the geometric claims.
-/

namespace SvgRd

/-! ## Python string and number primitives -/

/-- ASCII/unicode whitespace stripping from both ends, as Python `str.strip()`. -/
def pyStripList (cs : List Char) : List Char :=
  ((cs.dropWhile Char.isWhitespace).reverse.dropWhile Char.isWhitespace).reverse

def pyStrip (s : String) : String :=
  (pyStripList s.toList).asString

/-- Python `str.lower()` (ASCII case folding suffices for this repository). -/
def pyLower (s : String) : String :=
  (s.toList.map Char.toLower).asString

/-- Python `str.lstrip('#')`: remove every leading `#`. -/
def pyLstripHash (s : String) : String :=
  (s.toList.dropWhile (fun c => c = '#')).asString

/-- Accumulate a run of decimal digits, allowing single underscores between
digits (PEP 515), as Python's number grammar does.  Returns the value, the
number of digits consumed and the remaining characters. -/
def decDigitsAux : List Char → ℕ → ℕ → ℕ × ℕ × List Char
  | [], v, n => (v, n, [])
  | c :: rest, v, n =>
    if c.isDigit then decDigitsAux rest (10 * v + (c.toNat - 48)) (n + 1)
    else if c = '_' ∧ rest.head?.elim false Char.isDigit then decDigitsAux rest v n
    else (v, n, c :: rest)

/-- A hexadecimal digit, as accepted by Python `int(·, 16)`. -/
def isHexDig (c : Char) : Bool :=
  c.isDigit || ('a' ≤ c && c ≤ 'f') || ('A' ≤ c && c ≤ 'F')

/-- The value of a hexadecimal digit. -/
def hexDigVal (c : Char) : ℕ :=
  if c.isDigit then c.toNat - 48
  else if 'a' ≤ c ∧ c ≤ 'f' then c.toNat - 87
  else c.toNat - 55

/-- Accumulate a run of hexadecimal digits with single underscores between
digits. -/
def hexDigitsAux : List Char → ℕ → ℕ → ℕ × ℕ × List Char
  | [], v, n => (v, n, [])
  | c :: rest, v, n =>
    if isHexDig c then hexDigitsAux rest (16 * v + hexDigVal c) (n + 1)
    else if c = '_' ∧ rest.head?.elim false isHexDig then hexDigitsAux rest v n
    else (v, n, c :: rest)

/-- Optional sign: returns `1` or `-1` and the rest. -/
def readSign : List Char → ℤ × List Char
  | '+' :: rest => (1, rest)
  | '-' :: rest => (-1, rest)
  | cs => (1, cs)

/-- The exponent tail of a Python float literal (after `e`/`E`). -/
def pyFloatExp (sgn : ℤ) (mant : ℚ) (rest : List Char) : Option ℚ :=
  let (esgn, rest1) := readSign rest
  let (ev, ecount, rest2) := decDigitsAux rest1 0 0
  if ecount = 0 ∨ rest2 ≠ [] then none
  else some ((sgn : ℚ) * mant * (10 : ℚ) ^ (esgn * (ev : ℤ)))

/-- Model of Python `float(s)` for finite decimal literals: optional
whitespace, optional sign, decimal mantissa with optional fraction, optional
exponent.  `none` models a raised `ValueError`; the non-finite literals
(`inf`, `nan`), which are outside the rational model, are also mapped to
`none` (no claim in this development evaluates them). -/
def pyFloat (s : String) : Option ℚ :=
  let cs := pyStripList s.toList
  let (sgn, cs) := readSign cs
  -- integer part
  let (iv, icount, cs1) := decDigitsAux cs 0 0
  -- optional fractional part
  let (fv, fcount, cs2) :=
    match cs1 with
    | '.' :: rest => decDigitsAux rest 0 0
    | _ => (0, 0, cs1)
  if icount = 0 ∧ fcount = 0 then none
  else
    let mant : ℚ := (iv : ℚ) + (fv : ℚ) / (10 : ℚ) ^ fcount
    match cs2 with
    | [] => some ((sgn : ℚ) * mant)
    | 'e' :: rest => pyFloatExp sgn mant rest
    | 'E' :: rest => pyFloatExp sgn mant rest
    | _ => none

/-- Model of Python `int(s, 16)`: optional whitespace, optional sign, optional
`0x`/`0X` prefix, hexadecimal digits.  `none` models a raised `ValueError`. -/
def pyIntHex (s : String) : Option ℤ :=
  let cs := pyStripList s.toList
  let (sgn, cs) := readSign cs
  let cs := match cs with
    | '0' :: 'x' :: rest => (match rest with | '_' :: r2 => r2 | _ => rest)
    | '0' :: 'X' :: rest => (match rest with | '_' :: r2 => r2 | _ => rest)
    | _ => cs
  let (v, n, rest) := hexDigitsAux cs 0 0
  if n = 0 ∨ rest ≠ [] then none
  else some (sgn * (v : ℤ))

/-! ## `hex_to_rgb` (svg2rd.py lines 12–39) -/

/-- The color-name table from `hex_to_rgb`. -/
def COLOR_NAME_TO_HEX : List (String × String) :=
  [("black", "#000000"), ("white", "#ffffff"), ("red", "#ff0000"), ("green", "#008000"),
   ("blue", "#0000ff"), ("yellow", "#ffff00"), ("cyan", "#00ffff"), ("magenta", "#ff00ff"),
   ("silver", "#c0c0c0"), ("gray", "#808080"), ("maroon", "#800000"), ("olive", "#808000"),
   ("purple", "#800080"), ("teal", "#008080"), ("navy", "#000080"), ("none", "#ffffff")]

/-- The canonicalisation stage of `hex_to_rgb`: lower-case and strip, replace a
recognised name by its hex string, strip leading `#`, and expand a 3-character
form by doubling each character. -/
def hexCanon (color_str : String) : String :=
  let cs := pyStrip (pyLower color_str)
  let hex0 := match (COLOR_NAME_TO_HEX.lookup cs) with
    | some h => h
    | none => cs
  let hex1 := pyLstripHash hex0
  if hex1.length = 3 then (hex1.toList.flatMap (fun c => [c, c])).asString
  else hex1

/-- `hex_to_rgb` (svg2rd.py lines 12–39).  Total: every parse failure falls
back to white `(255,255,255)`, mirroring the length test and the
`try/except ValueError` in the source. -/
def hex_to_rgb (color_str : String) : ℤ × ℤ × ℤ :=
  let hex := hexCanon color_str
  if hex.length ≠ 6 then (255, 255, 255)
  else
    let cs := hex.toList
    match pyIntHex (cs.take 2).asString,
          pyIntHex ((cs.drop 2).take 2).asString,
          pyIntHex ((cs.drop 4).take 2).asString with
    | some r, some g, some b => (r, g, b)
    | _, _, _ => (255, 255, 255)

def rgbSum (c : ℤ × ℤ × ℤ) : ℤ := c.1 + c.2.1 + c.2.2

/-! ## `parse_transform` (svg2rd.py lines 41–66)

The three `re.search` calls are modelled by leftmost-match scanners.  The
patterns `scale\(([^,)]+)(?:,([^)]+))?\)`, the analogous `translate` pattern
and the six-argument `matrix` pattern are deterministic at a fixed start
position (a shorter greedy group can never rescue a failed match, since every
rejected continuation character is also a group character), so the scanner
tries each start position from the left and keeps the first success, exactly
as the backtracking engine does. -/

/-- Greedy `[^,)]+` group: longest nonempty run of characters that are neither
`,` nor `)`. -/
def groupNoCommaParen (cs : List Char) : List Char × List Char :=
  cs.span (fun c => !(c = ',' || c = ')'))

/-- Match the argument part of `scale(...)`/`translate(...)` after the opening
parenthesis: `([^,)]+)(?:,([^)]+))?\)`. -/
def twoArgMatch (cs : List Char) : Option (String × Option String) :=
  let (a, rest) := groupNoCommaParen cs
  if a = [] then none
  else
    match rest with
    | ')' :: _ => some (a.asString, none)
    | ',' :: rest2 =>
      let (b, rest3) := rest2.span (fun c => !(c = ')'))
      if b = [] then none
      else
        match rest3 with
        | ')' :: _ => some (a.asString, some b.asString)
        | _ => none
    | _ => none

/-- Match the argument part of `matrix(...)` after the opening parenthesis:
six `[^,)]+` groups separated by commas, closed by `)`. -/
def matrixArgsMatch (cs : List Char) : Option (List String) :=
  let step (cs : List Char) : Option (List Char × List Char) :=
    let (a, rest) := groupNoCommaParen cs
    if a = [] then none else some (a, rest)
  match step cs with
  | none => none
  | some (g1, r1) =>
  match r1 with
  | ',' :: r1' =>
    match step r1' with
    | none => none
    | some (g2, r2) =>
    match r2 with
    | ',' :: r2' =>
      match step r2' with
      | none => none
      | some (g3, r3) =>
      match r3 with
      | ',' :: r3' =>
        match step r3' with
        | none => none
        | some (g4, r4) =>
        match r4 with
        | ',' :: r4' =>
          match step r4' with
          | none => none
          | some (g5, r5) =>
          match r5 with
          | ',' :: r5' =>
            match step r5' with
            | none => none
            | some (g6, r6) =>
            match r6 with
            | ')' :: _ => some [g1.asString, g2.asString, g3.asString,
                                g4.asString, g5.asString, g6.asString]
            | _ => none
          | _ => none
        | _ => none
      | _ => none
    | _ => none
  | _ => none

/-- `re.search` for `scale\(([^,)]+)(?:,([^)]+))?\)`: leftmost occurrence of
the literal `scale(` whose argument part matches. -/
def searchScale : List Char → Option (String × Option String)
  | [] => none
  | c :: rest =>
    if ("scale(".toList).isPrefixOf (c :: rest) then
      match twoArgMatch ((c :: rest).drop 6) with
      | some r => some r
      | none => searchScale rest
    else searchScale rest

/-- `re.search` for `translate\(([^,)]+)(?:,([^)]+))?\)`. -/
def searchTranslate : List Char → Option (String × Option String)
  | [] => none
  | c :: rest =>
    if ("translate(".toList).isPrefixOf (c :: rest) then
      match twoArgMatch ((c :: rest).drop 10) with
      | some r => some r
      | none => searchTranslate rest
    else searchTranslate rest

/-- `re.search` for `matrix\(([^,)]+),([^,)]+),([^,)]+),([^,)]+),([^,)]+),([^,)]+)\)`. -/
def searchMatrix : List Char → Option (List String)
  | [] => none
  | c :: rest =>
    if ("matrix(".toList).isPrefixOf (c :: rest) then
      match matrixArgsMatch ((c :: rest).drop 7) with
      | some r => some r
      | none => searchMatrix rest
    else searchMatrix rest

/-- The `scale` stage of `parse_transform`: if the pattern matched, convert
the captured groups with `float` (a failed conversion raises, i.e. `none`);
`sy` defaults to `sx`. -/
def applyScale (ts : String) (st : ℚ × ℚ × ℚ × ℚ) : Option (ℚ × ℚ × ℚ × ℚ) :=
  match searchScale ts.toList with
  | none => some st
  | some (g1, g2) =>
    match pyFloat g1 with
    | none => none
    | some sx =>
      match g2 with
      | none => some (sx, sx, st.2.2.1, st.2.2.2)
      | some g2s =>
        match pyFloat g2s with
        | none => none
        | some sy => some (sx, sy, st.2.2.1, st.2.2.2)

/-- The `translate` stage of `parse_transform`; `ty` defaults to `0`. -/
def applyTranslate (ts : String) (st : ℚ × ℚ × ℚ × ℚ) : Option (ℚ × ℚ × ℚ × ℚ) :=
  match searchTranslate ts.toList with
  | none => some st
  | some (g1, g2) =>
    match pyFloat g1 with
    | none => none
    | some tx =>
      match g2 with
      | none => some (st.1, st.2.1, tx, 0)
      | some g2s =>
        match pyFloat g2s with
        | none => none
        | some ty => some (st.1, st.2.1, tx, ty)

/-- The `matrix` stage of `parse_transform`: groups 1, 4, 5, 6 become
`sx, sy, tx, ty`; the skew groups 2 and 3 are never converted (the source
ignores them without calling `float`). -/
def applyMatrix (ts : String) (st : ℚ × ℚ × ℚ × ℚ) : Option (ℚ × ℚ × ℚ × ℚ) :=
  match searchMatrix ts.toList with
  | none => some st
  | some gs =>
    match gs with
    | [g1, _g2, _g3, g4, g5, g6] =>
      match pyFloat g1, pyFloat g4, pyFloat g5, pyFloat g6 with
      | some a, some d, some e, some f => some (a, d, e, f)
      | _, _, _, _ => none
    | _ => none

/-- `parse_transform` (svg2rd.py lines 41–66).  Starts from the identity
`(1, 1, 0, 0)`; an absent (`None`, modelled as the empty string through
`Element.get(.., "")`) or empty string short-circuits to the identity.
`none` models a raised `ValueError` from a `float` conversion. -/
def parse_transform (transform_str : String) : Option (ℚ × ℚ × ℚ × ℚ) :=
  if transform_str = "" then some (1, 1, 0, 0)
  else do
    let st1 ← applyScale transform_str (1, 1, 0, 0)
    let st2 ← applyTranslate transform_str st1
    applyMatrix transform_str st2

/-! ## Document model

A read-only view of the parsed element tree: tag, attribute map, ordered
children.  Tags other than the eight that `extract_paths_recursive` queries
with `findall` are collapsed into `other`. -/

inductive Tag
  | path | line | rect | circle | ellipse | polyline | polygon | g | other
deriving DecidableEq

structure Elem where
  tag : Tag
  attrs : List (String × String)
  children : List Elem

theorem sizeOf_child_lt {g e : Elem} (hg : g ∈ e.children) : sizeOf g < sizeOf e := by
  cases e with
  | mk t a c =>
    have h1 := List.sizeOf_lt_of_mem hg
    simp only [Elem.mk.sizeOf_spec]
    simp at h1 ⊢
    omega

theorem sizeOf_filter_le {α : Type} [SizeOf α] (p : α → Bool) (l : List α) :
    sizeOf (l.filter p) ≤ sizeOf l := by
  induction l with
  | nil => simp
  | cons a t ih =>
    by_cases hp : p a
    · simp [List.filter_cons, hp]; omega
    · simp [List.filter_cons, hp]; omega

theorem sizeOf_filter_children_lt (e : Elem) (p : Elem → Bool) :
    sizeOf (e.children.filter p) < sizeOf e := by
  cases e with
  | mk t a c =>
    have h1 := sizeOf_filter_le p c
    simp only [Elem.mk.sizeOf_spec]
    simp at h1 ⊢
    omega

/-- `element.get(name)`. -/
def getAttr (e : Elem) (name : String) : Option String :=
  e.attrs.lookup name

/-- `float(element.get(name, 0))`: a missing attribute defaults to `0`, a
present one goes through `float` and may raise. -/
def getFloatAttr (e : Elem) (name : String) : Option ℚ :=
  match getAttr e name with
  | none => some 0
  | some s => pyFloat s

/-- `element.findall("./svg:<tag>")`: the direct children with that tag, in
document order. -/
def childrenWithTag (e : Elem) (t : Tag) : List Elem :=
  e.children.filter (fun c => c.tag = t)

/-! ## Point mapping and shape flattening (svg2rd.py lines 68–315) -/

/-- The per-point mapping used by every shape handler: the composed local
transform (`x*csx + ctx`, `y*csy + cty`) followed by the global bed transform
with vertical flip (`mx = xt*scale + ox`, `my = (h - yt)*scale + oy`).
Generic over the coordinate field so it can be instantiated at `ℚ` (the
executable walker) and at `ℝ` (for exact trigonometry). -/
def applyPoint {K : Type} [Field K] (csx csy ctx cty gscale gox goy h x y : K) : K × K :=
  let x_transformed := x * csx + ctx
  let y_transformed := y * csy + cty
  (x_transformed * gscale + gox, (h - y_transformed) * gscale + goy)

/-- Circle flattening (svg2rd.py lines 202–217): 36 segments of 10° each,
`range(37)` sample points, closed because the last angle is `2π`.  `kcos`,
`ksin`, `kpi` abstract the `math` library. -/
def flatten_circle {K : Type} [Field K] (kcos ksin : K → K) (kpi : K)
    (cx cy r csx csy ctx cty gscale gox goy h : K) : List (K × K) :=
  (List.range (36 + 1)).map (fun (i : ℕ) =>
    let angle := 2 * kpi * (i : K) / 36
    let x := cx + r * kcos angle
    let y := cy + r * ksin angle
    applyPoint csx csy ctx cty gscale gox goy h x y)

/-- Ellipse flattening (svg2rd.py lines 232–247). -/
def flatten_ellipse {K : Type} [Field K] (kcos ksin : K → K) (kpi : K)
    (cx cy rx ry csx csy ctx cty gscale gox goy h : K) : List (K × K) :=
  (List.range (36 + 1)).map (fun (i : ℕ) =>
    let angle := 2 * kpi * (i : K) / 36
    let x := cx + rx * kcos angle
    let y := cy + ry * ksin angle
    applyPoint csx csy ctx cty gscale gox goy h x y)

/-- A flattened polyline in machine coordinates. -/
abbrev PathQ := List (ℚ × ℚ)

/-- The color-keyed accumulator `{'#RRGGBB': [path, ...]}`, with Python-dict
insertion-order semantics. -/
abbrev ColorDict := List (String × List PathQ)

/-- A parsed path-grammar segment, the seam to the external `svg.path`
parser: either a straight segment with explicit endpoints, or a parametric
segment whose `point(t)` evaluation may raise (`none`), in which case that
sample is skipped. -/
inductive PySeg
  | line (ps pe : ℚ × ℚ)
  | curve (pointAt : ℚ → Option (ℚ × ℚ))

/-- The paths contributed by one parsed segment (svg2rd.py lines 91–135):
straight segments give their two endpoints; curved segments are sampled at
the 21 parameters `i/20` with failing samples skipped, and kept only with at
least 2 surviving points. -/
def segPaths (A : ℚ → ℚ → ℚ × ℚ) : PySeg → List PathQ
  | .line ps pe => [[A ps.1 ps.2, A pe.1 pe.2]]
  | .curve pointAt =>
    let path := (List.range (20 + 1)).filterMap
      (fun (i : ℕ) => (pointAt ((i : ℚ) / 20)).map (fun p => A p.1 p.2))
    if 2 ≤ path.length then [path] else []

/-- `<path>` handler body: parse `d` and flatten every segment. -/
def flattenPathEl (pp : String → List PySeg) (A : ℚ → ℚ → ℚ × ℚ) (el : Elem) :
    Option (List PathQ) :=
  some ((pp ((getAttr el "d").getD "")).flatMap (segPaths A))

/-- A `<path>` with a missing or empty `d` is skipped before its stroke key is
created (`if not d: continue`). -/
def pathSkip (el : Elem) : Bool :=
  match getAttr el "d" with
  | none => true
  | some s => s = ""

/-- `<line>` handler body (svg2rd.py lines 143–160). -/
def flattenLineEl (A : ℚ → ℚ → ℚ × ℚ) (el : Elem) : Option (List PathQ) := do
  let x1 ← getFloatAttr el "x1"
  let y1 ← getFloatAttr el "y1"
  let x2 ← getFloatAttr el "x2"
  let y2 ← getFloatAttr el "y2"
  pure [[A x1 y1, A x2 y2]]

/-- `<rect>` handler body (svg2rd.py lines 168–190): five corners, first
repeated. -/
def flattenRectEl (A : ℚ → ℚ → ℚ × ℚ) (el : Elem) : Option (List PathQ) := do
  let x ← getFloatAttr el "x"
  let y ← getFloatAttr el "y"
  let width ← getFloatAttr el "width"
  let height ← getFloatAttr el "height"
  let corners := [(x, y), (x + width, y), (x + width, y + height), (x, y + height), (x, y)]
  pure [corners.map (fun c => A c.1 c.2)]

/-- `<circle>` handler body (svg2rd.py lines 198–219). -/
def flattenCircleEl (mcos msin : ℚ → ℚ) (mpi : ℚ)
    (csx csy ctx cty gscale gox goy h : ℚ) (el : Elem) : Option (List PathQ) := do
  let cx ← getFloatAttr el "cx"
  let cy ← getFloatAttr el "cy"
  let r ← getFloatAttr el "r"
  pure [flatten_circle mcos msin mpi cx cy r csx csy ctx cty gscale gox goy h]

/-- `<ellipse>` handler body (svg2rd.py lines 227–249). -/
def flattenEllipseEl (mcos msin : ℚ → ℚ) (mpi : ℚ)
    (csx csy ctx cty gscale gox goy h : ℚ) (el : Elem) : Option (List PathQ) := do
  let cx ← getFloatAttr el "cx"
  let cy ← getFloatAttr el "cy"
  let rx ← getFloatAttr el "rx"
  let ry ← getFloatAttr el "ry"
  pure [flatten_ellipse mcos msin mpi cx cy rx ry csx csy ctx cty gscale gox goy h]

/-- Whitespace split, as Python `str.split()` with no argument. -/
def wsSplitAux : List Char → List Char → List String
  | [], acc => if acc = [] then [] else [acc.reverse.asString]
  | c :: rest, acc =>
    if c.isWhitespace then
      if acc = [] then wsSplitAux rest []
      else acc.reverse.asString :: wsSplitAux rest []
    else wsSplitAux rest (c :: acc)

def pySplitWs (s : String) : List String := wsSplitAux s.toList []

/-- Parse a `points` pair list (svg2rd.py lines 260–273): pairs without a
comma are skipped; `x, y = map(float, pair.split(','))` raises on a pair that
does not split into exactly two floats. -/
def parsePointPairs : List String → Option (List (ℚ × ℚ))
  | [] => some []
  | pair :: rest =>
    if pair.toList.contains ',' then
      match pair.splitOn "," with
      | [xs, ys] =>
        match pyFloat xs, pyFloat ys with
        | some x, some y => (parsePointPairs rest).map (fun l => (x, y) :: l)
        | _, _ => none
      | _ => none
    else parsePointPairs rest

/-- `<polyline>` handler body (svg2rd.py lines 257–276): open path, appended
only if nonempty; an absent or empty `points` attribute contributes nothing
(but the stroke key was already created). -/
def flattenPolylineEl (A : ℚ → ℚ → ℚ × ℚ) (el : Elem) : Option (List PathQ) :=
  let points_str := (getAttr el "points").getD ""
  if points_str = "" then some []
  else do
    let pts ← parsePointPairs (pySplitWs (pyStrip points_str))
    let path := pts.map (fun p => A p.1 p.2)
    pure (if path = [] then [] else [path])

/-- `<polygon>` handler body (svg2rd.py lines 284–305): closed by repeating
the first point, appended only when more than 2 points were parsed. -/
def flattenPolygonEl (A : ℚ → ℚ → ℚ × ℚ) (el : Elem) : Option (List PathQ) :=
  let points_str := (getAttr el "points").getD ""
  if points_str = "" then some []
  else do
    let pts ← parsePointPairs (pySplitWs (pyStrip points_str))
    let path := pts.map (fun p => A p.1 p.2)
    match path with
    | [] => pure []
    | p0 :: _ => pure (if 2 < path.length then [path ++ [p0]] else [])

/-! ## The color dictionary and the recursive walker -/

/-- `if stroke_color not in paths: paths[stroke_color] = []` — create the key
(at the end, in insertion order) if absent. -/
def ensureKey : ColorDict → String → ColorDict
  | [], k => [(k, [])]
  | (k', v) :: rest, k =>
    if k' = k then (k', v) :: rest else (k', v) :: ensureKey rest k

/-- `paths[k].extend(ps)` (or the per-path `append`s), creating the key if
absent. -/
def dictExtend : ColorDict → String → List PathQ → ColorDict
  | [], k, ps => [(k, ps)]
  | (k', v) :: rest, k, ps =>
    if k' = k then (k', v ++ ps) :: rest else (k', v) :: dictExtend rest k ps

/-- `paths.get(c, [])`-style lookup. -/
def dlookup (d : ColorDict) (c : String) : List PathQ :=
  match d.lookup c with
  | some v => v
  | none => []

/-- The merge loop for a recursed group's dictionary (svg2rd.py
lines 310–313). -/
def mergeDict (d sub : ColorDict) : ColorDict :=
  sub.foldl (fun acc kv => dictExtend (ensureKey acc kv.1) kv.1 kv.2) d

/-- One `findall` pass over the children of one tag: resolve the stroke key
(default `"#000000"`), create it, flatten the shape and append its paths.
`skip` models the `<path>`-specific `if not d: continue` that fires before
the key is created; a `none` from `flat` models a raised conversion error. -/
def shapePass (skip : Elem → Bool) (flat : Elem → Option (List PathQ)) :
    List Elem → ColorDict → Option ColorDict
  | [], d => some d
  | el :: rest, d =>
    if skip el then shapePass skip flat rest d
    else
      let stroke := (getAttr el "stroke").getD "#000000"
      let d1 := ensureKey d stroke
      match flat el with
      | none => none
      | some ps => shapePass skip flat rest (dictExtend d1 stroke ps)

mutual

/-- `extract_paths_recursive` (svg2rd.py lines 68–315).  Parses the element's
own transform, composes it with the parent transform, then processes the
element's direct children in seven tag passes — `path`, `line`, `rect`,
`circle`, `ellipse`, `polyline`, `polygon` — and finally recurses into `<g>`
children, merging their dictionaries.  `pp` is the external `svg.path`
parser seam, `mcos`/`msin`/`mpi` the `math` library seam. -/
def extract_paths_recursive (pp : String → List PySeg) (mcos msin : ℚ → ℚ) (mpi : ℚ)
    (element : Elem) (parent_transform : ℚ × ℚ × ℚ × ℚ)
    (global_scale global_ox global_oy h : ℚ) : Option ColorDict :=
  match parse_transform ((getAttr element "transform").getD "") with
  | none => none
  | some (lsx, lsy, ltx, lty) =>
    let psx := parent_transform.1
    let psy := parent_transform.2.1
    let ptx := parent_transform.2.2.1
    let pty := parent_transform.2.2.2
    let csx := psx * lsx
    let csy := psy * lsy
    let ctx := psx * ltx + ptx
    let cty := psy * lty + pty
    let A := fun (x y : ℚ) =>
      applyPoint csx csy ctx cty global_scale global_ox global_oy h x y
    match shapePass pathSkip (flattenPathEl pp A) (childrenWithTag element .path) [] with
    | none => none
    | some d1 =>
    match shapePass (fun _ => false) (flattenLineEl A) (childrenWithTag element .line) d1 with
    | none => none
    | some d2 =>
    match shapePass (fun _ => false) (flattenRectEl A) (childrenWithTag element .rect) d2 with
    | none => none
    | some d3 =>
    match shapePass (fun _ => false)
        (flattenCircleEl mcos msin mpi csx csy ctx cty global_scale global_ox global_oy h)
        (childrenWithTag element .circle) d3 with
    | none => none
    | some d4 =>
    match shapePass (fun _ => false)
        (flattenEllipseEl mcos msin mpi csx csy ctx cty global_scale global_ox global_oy h)
        (childrenWithTag element .ellipse) d4 with
    | none => none
    | some d5 =>
    match shapePass (fun _ => false) (flattenPolylineEl A) (childrenWithTag element .polyline) d5 with
    | none => none
    | some d6 =>
    match shapePass (fun _ => false) (flattenPolygonEl A) (childrenWithTag element .polygon) d6 with
    | none => none
    | some d7 =>
      groupsFold pp mcos msin mpi (childrenWithTag element .g) (csx, csy, ctx, cty)
        global_scale global_ox global_oy h d7
termination_by (sizeOf element, 0)
decreasing_by
  exact Prod.Lex.left _ _ (sizeOf_filter_children_lt element _)

/-- The recursion loop over `<g>` children (svg2rd.py lines 308–313): walk
each group with the composed transform as its parent and merge its
dictionary into the accumulator. -/
def groupsFold (pp : String → List PySeg) (mcos msin : ℚ → ℚ) (mpi : ℚ) :
    List Elem → (ℚ × ℚ × ℚ × ℚ) → ℚ → ℚ → ℚ → ℚ → ColorDict → Option ColorDict
  | [], _, _, _, _, _, d => some d
  | g :: rest, ct, gsc, gox, goy, h, d =>
    match extract_paths_recursive pp mcos msin mpi g ct gsc gox goy h with
    | none => none
    | some sub => groupsFold pp mcos msin mpi rest ct gsc gox goy h (mergeDict d sub)
termination_by l => (sizeOf l, 1)
decreasing_by
  · exact Prod.Lex.left _ _ (by simp <;> omega)
  · exact Prod.Lex.left _ _ (by simp <;> omega)

end

/-! ## Spec-side projections of the walker (for claim C1)

Two reference definitions built from the specification's words rather than
from the walker's dictionary plumbing.  Both produce the list of flattened
paths a single color receives, using the same shape flatteners as the code.
-/

theorem sizeOf_children_lt (e : Elem) : sizeOf e.children < sizeOf e := by
  cases e with
  | mk t a c => simp only [Elem.mk.sizeOf_spec]; omega

/-- The grouping key of a shape: its `stroke` attribute, `"#000000"` when
absent. -/
def strokeOf (el : Elem) : String := (getAttr el "stroke").getD "#000000"

/-- Parse-and-compose of one element's transform against its parent's, the
arithmetic of svg2rd.py lines 74–78 (total: a parse error is replaced by the
identity, which never differs from the code on runs where the walker
succeeds). -/
def composeTransform (pt : ℚ × ℚ × ℚ × ℚ) (e : Elem) : ℚ × ℚ × ℚ × ℚ :=
  let lt := (parse_transform ((getAttr e "transform").getD "")).getD (1, 1, 0, 0)
  (pt.1 * lt.1, pt.2.1 * lt.2.1,
   pt.1 * lt.2.2.1 + pt.2.2.1, pt.2.1 * lt.2.2.2 + pt.2.2.2)

/-- Total per-shape flattening under a composed transform, dispatching on the
tag exactly as the corresponding `findall` pass would (a raised conversion
error is replaced by no contribution; on runs where the walker succeeds the
two never differ). -/
def shapeFlattenTot (pp : String → List PySeg) (mcos msin : ℚ → ℚ) (mpi : ℚ)
    (ct : ℚ × ℚ × ℚ × ℚ) (gsc gox goy h : ℚ) (el : Elem) : List PathQ :=
  let A := fun (x y : ℚ) => applyPoint ct.1 ct.2.1 ct.2.2.1 ct.2.2.2 gsc gox goy h x y
  match el.tag with
  | .path => if pathSkip el then [] else (flattenPathEl pp A el).getD []
  | .line => (flattenLineEl A el).getD []
  | .rect => (flattenRectEl A el).getD []
  | .circle =>
    (flattenCircleEl mcos msin mpi ct.1 ct.2.1 ct.2.2.1 ct.2.2.2 gsc gox goy h el).getD []
  | .ellipse =>
    (flattenEllipseEl mcos msin mpi ct.1 ct.2.1 ct.2.2.1 ct.2.2.2 gsc gox goy h el).getD []
  | .polyline => (flattenPolylineEl A el).getD []
  | .polygon => (flattenPolygonEl A el).getD []
  | _ => []

mutual

/-- Modelled from the spec's words in claim C1: the paths color `c` receives
from element `e` when geometry is accumulated by a depth-first traversal that
visits `e`'s children *in document order*, flattening shape children and
recursing into group children as it meets them. -/
def docOrderPathsFor (pp : String → List PySeg) (mcos msin : ℚ → ℚ) (mpi : ℚ)
    (c : String) (e : Elem) (pt : ℚ × ℚ × ℚ × ℚ) (gsc gox goy h : ℚ) : List PathQ :=
  docOrderChildren pp mcos msin mpi c e.children (composeTransform pt e) gsc gox goy h
termination_by (sizeOf e, 0)
decreasing_by
  exact Prod.Lex.left _ _ (sizeOf_children_lt e)

/-- Document-order traversal of a child list for `docOrderPathsFor`. -/
def docOrderChildren (pp : String → List PySeg) (mcos msin : ℚ → ℚ) (mpi : ℚ)
    (c : String) : List Elem → (ℚ × ℚ × ℚ × ℚ) → ℚ → ℚ → ℚ → ℚ → List PathQ
  | [], _, _, _, _, _ => []
  | ch :: rest, ct, gsc, gox, goy, h =>
    (if ch.tag = .g then docOrderPathsFor pp mcos msin mpi c ch ct gsc gox goy h
     else if strokeOf ch = c then shapeFlattenTot pp mcos msin mpi ct gsc gox goy h ch
     else []) ++ docOrderChildren pp mcos msin mpi c rest ct gsc gox goy h
termination_by l => (sizeOf l, 1)
decreasing_by
  · exact Prod.Lex.left _ _ (by simp <;> omega)
  · exact Prod.Lex.left _ _ (by simp <;> omega)

end

mutual

/-- The per-color projection of the walker's actual order (the amended claim
C1): each element contributes its own shape children in the seven fixed tag
passes — `path`, `line`, `rect`, `circle`, `ellipse`, `polyline`, `polygon`,
document order within each pass — followed by the contributions of its `<g>`
children in the groups' document order. -/
def tagPassPathsFor (pp : String → List PySeg) (mcos msin : ℚ → ℚ) (mpi : ℚ)
    (c : String) (e : Elem) (pt : ℚ × ℚ × ℚ × ℚ) (gsc gox goy h : ℚ) : List PathQ :=
  let ct := composeTransform pt e
  let own := fun (t : Tag) =>
    (childrenWithTag e t).flatMap (fun el =>
      if strokeOf el = c then shapeFlattenTot pp mcos msin mpi ct gsc gox goy h el else [])
  own .path ++ own .line ++ own .rect ++ own .circle ++ own .ellipse ++ own .polyline ++
    own .polygon ++ tagPassGroups pp mcos msin mpi c (childrenWithTag e .g) ct gsc gox goy h
termination_by (sizeOf e, 0)
decreasing_by
  exact Prod.Lex.left _ _ (sizeOf_filter_children_lt e _)

/-- Group recursion for `tagPassPathsFor`. -/
def tagPassGroups (pp : String → List PySeg) (mcos msin : ℚ → ℚ) (mpi : ℚ)
    (c : String) : List Elem → (ℚ × ℚ × ℚ × ℚ) → ℚ → ℚ → ℚ → ℚ → List PathQ
  | [], _, _, _, _, _ => []
  | g :: rest, ct, gsc, gox, goy, h =>
    tagPassPathsFor pp mcos msin mpi c g ct gsc gox goy h ++
      tagPassGroups pp mcos msin mpi c rest ct gsc gox goy h
termination_by l => (sizeOf l, 1)
decreasing_by
  · exact Prod.Lex.left _ _ (by simp <;> omega)
  · exact Prod.Lex.left _ _ (by simp <;> omega)

end

/-! ## `extract_paths` (svg2rd.py lines 317–336): document size and bed fit -/

/-- `re.sub(r'[^\d.]', '', s)`: keep only digits and dots. -/
def stripNonNumeric (s : String) : String :=
  (s.toList.filter (fun c => c.isDigit || c = '.')).asString

/-- Python truthiness test for an optional string attribute (`None` and `""`
are falsy). -/
def falsyAttr : Option String → Bool
  | none => true
  | some s => s = ""

/-- The logical document size `(w, h)` from the root: the `viewBox` third and
fourth entries when present, otherwise `width`/`height` with non-numeric
characters stripped; `none` models the raised
`ValueError("SVG has no viewBox, width, or height attributes.")` or a failed
`float` conversion. -/
def extract_size (root : Elem) : Option (ℚ × ℚ) :=
  let vb_str := getAttr root "viewBox"
  if falsyAttr vb_str then
    let w_str := getAttr root "width"
    let h_str := getAttr root "height"
    if falsyAttr w_str ∨ falsyAttr h_str then none
    else do
      let w ← pyFloat (stripNonNumeric (w_str.getD ""))
      let h ← pyFloat (stripNonNumeric (h_str.getD ""))
      pure (w, h)
  else
    match (pySplitWs (vb_str.getD "")).map pyFloat with
    | [some _, some _, some w, some h] => some (w, h)
    | _ => none

/-- The bed fit (svg2rd.py lines 331–333): `scale = 50 / max(w, h)` and
centering offsets. -/
def computeFit (w h : ℚ) : ℚ × ℚ × ℚ :=
  let scale := 50 / max w h
  let ox := (50 - w * scale) / 2
  let oy := (50 - h * scale) / 2
  (scale, ox, oy)

/-- `extract_paths` (svg2rd.py lines 317–336). -/
def extract_paths (pp : String → List PySeg) (mcos msin : ℚ → ℚ) (mpi : ℚ)
    (root : Elem) : Option ColorDict :=
  match extract_size root with
  | none => none
  | some (w, h) =>
    let (scale, ox, oy) := computeFit w h
    extract_paths_recursive pp mcos msin mpi root (1, 1, 0, 0) scale ox oy h

/-! ## Layer planning (svg2rd.py lines 338–397) -/

/-- Python `int(float)`: truncation toward zero. -/
def pyTrunc (q : ℚ) : ℤ :=
  if 0 ≤ q then ⌊q⌋ else ⌈q⌉

/-- The per-layer power computation (svg2rd.py lines 370–382): integer
luminance `int(0.299 R + 0.587 G + 0.114 B)`, normalised, inverted, mapped
into `[min_power, max_power]` and capped above by `min(max_power, ·)`. -/
def layerPower (rgb : ℤ × ℤ × ℤ) (min_power max_power : ℚ) : ℚ :=
  let gray_value : ℤ :=
    pyTrunc ((299 / 1000 : ℚ) * rgb.1 + (587 / 1000) * rgb.2.1 + (114 / 1000) * rgb.2.2)
  let power_range := max_power - min_power
  let normalized_gray : ℚ := (gray_value : ℚ) / 255
  let inverted_gray := 1 - normalized_gray
  min max_power (min_power + inverted_gray * power_range)

/-- Modelled from the spec's words in claim C4: the claimed power map,
`clamp(minPower + (1 − Y/255)·(maxPower − minPower), minPower, maxPower)`
with the *real-valued* luminance `Y = 0.299R + 0.587G + 0.114B` (no integer
truncation).  Kept for comparison against `layerPower`, which the code
computes with `int(...)` truncation. -/
def specClampPower (R G B minP maxP : ℚ) : ℚ :=
  let Y := (299 / 1000) * R + (587 / 1000) * G + (114 / 1000) * B
  max minP (min maxP (minP + (1 - Y / 255) * (maxP - minP)))

/-- Stable insertion into a key-sorted list: the new element goes before the
first strictly-or-equally larger key, i.e. an element inserted from the left
of the original list stays before later elements with an equal key. -/
def insertByKey (key : String → ℤ) (a : String) : List String → List String
  | [] => [a]
  | b :: l => if key a ≤ key b then a :: b :: l else b :: insertByKey key a l

/-- Model of Python's stable ascending `sorted(·, key=·)`. -/
def sortByKey (key : String → ℤ) : List String → List String
  | [] => []
  | a :: l => insertByKey key a (sortByKey key l)

/-- One machine layer as handed to `RuidaLayer`: paths, speed,
`power=[power, power]`, resolved color. -/
structure RdLayer where
  paths : List PathQ
  speed : ℚ
  power : ℚ × ℚ
  color : ℤ × ℤ × ℤ
deriving DecidableEq

/-- The planning loop of `svg_to_rd` (svg2rd.py lines 355–388): sort the
color keys ascending by `sum(hex_to_rgb(k))` (Python's `sorted` is stable, so
ties keep dictionary insertion order), skip colors with no paths, and build
one layer per remaining color. -/
def svg_to_rd_plan (paths_by_color : ColorDict) (min_power max_power speed : ℚ) :
    List RdLayer :=
  let sorted_colors := sortByKey (fun k => rgbSum (hex_to_rgb k)) (paths_by_color.map (·.1))
  sorted_colors.filterMap (fun color_hex =>
    let paths := dlookup paths_by_color color_hex
    if paths = [] then none
    else
      let rgb := hex_to_rgb color_hex
      let power := layerPower rgb min_power max_power
      some { paths := paths, speed := speed, power := (power, power), color := rgb })

/-- The whole conversion `svg_to_rd` up to the binary encoder seam: extract
the color-keyed paths, then plan the layers.  (The empty-dictionary early
return writes an empty file and produces no layers, which coincides with
planning an empty dictionary.) -/
def svg_to_rd_job (pp : String → List PySeg) (mcos msin : ℚ → ℚ) (mpi : ℚ)
    (root : Elem) (min_power max_power speed : ℚ) : Option (List RdLayer) :=
  match extract_paths pp mcos msin mpi root with
  | none => none
  | some paths_by_color => some (svg_to_rd_plan paths_by_color min_power max_power speed)

/-- The paths one tag pass contributes to color `c`. -/
def passContrib (skip : Elem → Bool) (flat : Elem → Option (List PathQ)) (c : String)
    (l : List Elem) : List PathQ :=
  l.flatMap (fun el =>
    if skip el then [] else if strokeOf el = c then (flat el).getD [] else [])

/-- The speed-independent observables of a layer: geometry, power, color. -/
def layerObservables (l : RdLayer) : List PathQ × (ℚ × ℚ) × (ℤ × ℤ × ℤ) :=
  (l.paths, l.power, l.color)

/-! ## Helper lemmas -/

/-! ## Dictionary lemmas -/

theorem dlookup_cons (k : String) (v : List PathQ) (rest : ColorDict) (c : String) :
    dlookup ((k, v) :: rest) c = if c = k then v else dlookup rest c := by
  by_cases h : c = k
  · simp [dlookup, List.lookup, h]
  · have hb : (c == k) = false := by simpa using h
    simp [dlookup, List.lookup, hb, h]

theorem dlookup_not_mem {d : ColorDict} {c : String} (h : c ∉ d.map (·.1)) :
    dlookup d c = [] := by
  induction d with
  | nil => rfl
  | cons kv rest ih =>
    obtain ⟨k, v⟩ := kv
    simp only [List.map_cons, List.mem_cons] at h
    push_neg at h
    rw [dlookup_cons, if_neg h.1]
    exact ih h.2

theorem dlookup_ensureKey (d : ColorDict) (k c : String) :
    dlookup (ensureKey d k) c = dlookup d c := by
  induction d with
  | nil =>
    show dlookup [(k, [])] c = dlookup [] c
    rw [dlookup_cons]
    by_cases h : c = k
    · simp [h, dlookup]
    · simp [h]
  | cons kv rest ih =>
    obtain ⟨k', v⟩ := kv
    by_cases hk : k' = k
    · simp [ensureKey, hk]
    · simp only [ensureKey, if_neg hk]
      rw [dlookup_cons, dlookup_cons, ih]

theorem dlookup_dictExtend (d : ColorDict) (k : String) (ps : List PathQ) (c : String) :
    dlookup (dictExtend d k ps) c = dlookup d c ++ (if c = k then ps else []) := by
  induction d with
  | nil =>
    show dlookup [(k, ps)] c = dlookup [] c ++ _
    rw [dlookup_cons]
    by_cases h : c = k
    · simp [h, dlookup]
    · simp [h, dlookup]
  | cons kv rest ih =>
    obtain ⟨k', v⟩ := kv
    by_cases hk : k' = k
    · subst hk
      rw [show dictExtend ((k', v) :: rest) k' ps = (k', v ++ ps) :: rest by
        simp [dictExtend]]
      rw [dlookup_cons, dlookup_cons]
      by_cases hc : c = k'
      · simp [hc]
      · simp [hc]
    · simp only [dictExtend, if_neg hk]
      rw [dlookup_cons, dlookup_cons, ih]
      by_cases hc : c = k'
      · have hck : ¬ c = k := fun h2 => hk (hc.symm.trans h2)
        rw [if_pos hc, if_pos hc, if_neg hck]
        simp
      · simp [hc]

theorem ensureKey_keys (d : ColorDict) (k : String) :
    (ensureKey d k).map (·.1) =
      if k ∈ d.map (·.1) then d.map (·.1) else d.map (·.1) ++ [k] := by
  induction d with
  | nil => simp [ensureKey]
  | cons kv rest ih =>
    obtain ⟨k', v⟩ := kv
    by_cases hk : k' = k
    · subst hk
      simp [ensureKey]
    · have hk2 : ¬ k = k' := fun h2 => hk h2.symm
      simp only [ensureKey, if_neg hk, List.map_cons]
      rw [ih]
      by_cases hm : k ∈ rest.map (·.1)
      · simp [hm, hk2]
      · simp [hm, hk2]

theorem dictExtend_keys (d : ColorDict) (k : String) (ps : List PathQ) :
    (dictExtend d k ps).map (·.1) =
      if k ∈ d.map (·.1) then d.map (·.1) else d.map (·.1) ++ [k] := by
  induction d with
  | nil => simp [dictExtend]
  | cons kv rest ih =>
    obtain ⟨k', v⟩ := kv
    by_cases hk : k' = k
    · subst hk
      simp [dictExtend]
    · have hk2 : ¬ k = k' := fun h2 => hk h2.symm
      simp only [dictExtend, if_neg hk, List.map_cons]
      rw [ih]
      by_cases hm : k ∈ rest.map (·.1)
      · simp [hm, hk2]
      · simp [hm, hk2]

theorem nodup_keys_ensureKey {d : ColorDict} (k : String) (h : (d.map (·.1)).Nodup) :
    ((ensureKey d k).map (·.1)).Nodup := by
  rw [ensureKey_keys]
  by_cases hm : k ∈ d.map (·.1)
  · simpa [hm]
  · simpa [hm, List.nodup_append]

theorem nodup_keys_dictExtend {d : ColorDict} (k : String) (ps : List PathQ)
    (h : (d.map (·.1)).Nodup) : ((dictExtend d k ps).map (·.1)).Nodup := by
  rw [dictExtend_keys]
  by_cases hm : k ∈ d.map (·.1)
  · simpa [hm]
  · simpa [hm, List.nodup_append]

theorem nodup_keys_mergeDict {sub : ColorDict} :
    ∀ {d : ColorDict}, (d.map (·.1)).Nodup → ((mergeDict d sub).map (·.1)).Nodup := by
  induction sub with
  | nil => intro d h; exact h
  | cons kv rest ih =>
    intro d h
    exact ih (nodup_keys_dictExtend kv.1 kv.2 (nodup_keys_ensureKey kv.1 h))

theorem dlookup_mergeDict {sub : ColorDict} (hsub : (sub.map (·.1)).Nodup) :
    ∀ (d : ColorDict) (c : String),
      dlookup (mergeDict d sub) c = dlookup d c ++ dlookup sub c := by
  induction sub with
  | nil => intro d c; simp [mergeDict, dlookup]
  | cons kv rest ih =>
    intro d c
    obtain ⟨k, ps⟩ := kv
    simp only [List.map_cons, List.nodup_cons] at hsub
    have step : mergeDict d ((k, ps) :: rest) =
        mergeDict (dictExtend (ensureKey d k) k ps) rest := rfl
    rw [step, ih hsub.2, dlookup_dictExtend, dlookup_ensureKey, dlookup_cons]
    by_cases hc : c = k
    · subst hc
      rw [dlookup_not_mem hsub.1]
      simp
    · simp [hc]

theorem shapePass_dlookup {skip : Elem → Bool} {flat : Elem → Option (List PathQ)} :
    ∀ {l : List Elem} {d d' : ColorDict}, shapePass skip flat l d = some d' →
      ∀ c, dlookup d' c = dlookup d c ++ passContrib skip flat c l := by
  intro l
  induction l with
  | nil =>
    intro d d' h c
    simp [shapePass] at h
    subst h
    simp [passContrib]
  | cons el rest ih =>
    intro d d' h c
    by_cases hs : skip el
    · simp only [shapePass, if_pos hs] at h
      rw [ih h c]
      simp [passContrib, hs]
    · simp only [shapePass, if_neg hs] at h
      cases hf : flat el with
      | none => rw [hf] at h; exact absurd h (by simp)
      | some ps =>
        rw [hf] at h
        simp only at h
        rw [ih h c, dlookup_dictExtend, dlookup_ensureKey]
        simp only [passContrib, List.flatMap_cons, if_neg hs, hf, Option.getD_some, strokeOf]
        by_cases hc : (getAttr el "stroke").getD "#000000" = c
        · rw [if_pos hc.symm, if_pos hc]
          simp [List.append_assoc]
        · rw [if_neg (Ne.symm hc), if_neg hc]
          simp [passContrib]

theorem shapePass_nodup_keys {skip : Elem → Bool} {flat : Elem → Option (List PathQ)} :
    ∀ {l : List Elem} {d d' : ColorDict}, shapePass skip flat l d = some d' →
      (d.map (·.1)).Nodup → (d'.map (·.1)).Nodup := by
  intro l
  induction l with
  | nil =>
    intro d d' h hn
    simp [shapePass] at h
    subst h
    exact hn
  | cons el rest ih =>
    intro d d' h hn
    by_cases hs : skip el
    · simp only [shapePass, if_pos hs] at h
      exact ih h hn
    · simp only [shapePass, if_neg hs] at h
      cases hf : flat el with
      | none => rw [hf] at h; exact absurd h (by simp)
      | some ps =>
        rw [hf] at h
        exact ih h (nodup_keys_dictExtend _ _ (nodup_keys_ensureKey _ hn))

theorem passContrib_eq (skip : Elem → Bool) (flat : Elem → Option (List PathQ))
    (f : Elem → List PathQ) (c : String) (l : List Elem)
    (hel : ∀ el ∈ l, (if skip el then [] else (flat el).getD []) = f el) :
    passContrib skip flat c l =
      l.flatMap (fun el => if strokeOf el = c then f el else []) := by
  induction l with
  | nil => rfl
  | cons el rest ih =>
    simp only [passContrib, List.flatMap_cons] at *
    rw [ih (fun x hx => hel x (List.mem_cons_of_mem el hx))]
    have h1 := hel el (List.mem_cons_self el rest)
    rw [← h1]
    by_cases hs : skip el
    · simp [hs]
    · simp [hs]

theorem groupsFold_aux (pp : String → List PySeg) (mcos msin : ℚ → ℚ) (mpi : ℚ) (n : ℕ)
    (IH : ∀ (e : Elem), sizeOf e ≤ n →
      ∀ (pt : ℚ × ℚ × ℚ × ℚ) (gsc gox goy h : ℚ) (d : ColorDict),
        extract_paths_recursive pp mcos msin mpi e pt gsc gox goy h = some d →
        ((d.map (·.1)).Nodup ∧
          ∀ c, dlookup d c = tagPassPathsFor pp mcos msin mpi c e pt gsc gox goy h)) :
    ∀ (l : List Elem), (∀ g ∈ l, sizeOf g ≤ n) →
      ∀ (ct : ℚ × ℚ × ℚ × ℚ) (gsc gox goy h : ℚ) (d0 d : ColorDict),
        groupsFold pp mcos msin mpi l ct gsc gox goy h d0 = some d →
        (d0.map (·.1)).Nodup →
        ((d.map (·.1)).Nodup ∧
          ∀ c, dlookup d c =
            dlookup d0 c ++ tagPassGroups pp mcos msin mpi c l ct gsc gox goy h) := by
  intro l
  induction l with
  | nil =>
    intro _ ct gsc gox goy h d0 d hg hn
    simp only [groupsFold] at hg
    cases hg
    exact ⟨hn, fun c => by simp [tagPassGroups]⟩
  | cons g rest ih =>
    intro hsz ct gsc gox goy h d0 d hg hn
    simp only [groupsFold] at hg
    split at hg
    · exact absurd hg (by simp)
    · rename_i sub hsub
      have hmain := IH g (hsz g (List.mem_cons_self g rest)) ct gsc gox goy h sub hsub
      have hrest := ih (fun x hx => hsz x (List.mem_cons_of_mem g hx)) ct gsc gox goy h
        (mergeDict d0 sub) d hg (nodup_keys_mergeDict hn)
      refine ⟨hrest.1, fun c => ?_⟩
      rw [hrest.2 c, dlookup_mergeDict hmain.1, hmain.2 c]
      simp [tagPassGroups, List.append_assoc]

theorem zero_lt_sizeOf_elem (e : Elem) : 0 < sizeOf e := by
  cases e
  simp only [Elem.mk.sizeOf_spec]
  omega

theorem tag_of_mem_childrenWithTag {e : Elem} {t : Tag} {el : Elem}
    (hmem : el ∈ childrenWithTag e t) : el.tag = t := by
  have := (List.mem_filter.mp hmem).2
  simpa using this

theorem sevenPasses (pp : String → List PySeg) (mcos msin : ℚ → ℚ) (mpi : ℚ)
    (csx csy ctx cty gsc gox goy h : ℚ) (e : Elem)
    {d1 d2 d3 d4 d5 d6 d7 : ColorDict}
    (h1 : shapePass pathSkip
      (flattenPathEl pp (fun x y => applyPoint csx csy ctx cty gsc gox goy h x y))
      (childrenWithTag e .path) [] = some d1)
    (h2 : shapePass (fun _ => false)
      (flattenLineEl (fun x y => applyPoint csx csy ctx cty gsc gox goy h x y))
      (childrenWithTag e .line) d1 = some d2)
    (h3 : shapePass (fun _ => false)
      (flattenRectEl (fun x y => applyPoint csx csy ctx cty gsc gox goy h x y))
      (childrenWithTag e .rect) d2 = some d3)
    (h4 : shapePass (fun _ => false)
      (flattenCircleEl mcos msin mpi csx csy ctx cty gsc gox goy h)
      (childrenWithTag e .circle) d3 = some d4)
    (h5 : shapePass (fun _ => false)
      (flattenEllipseEl mcos msin mpi csx csy ctx cty gsc gox goy h)
      (childrenWithTag e .ellipse) d4 = some d5)
    (h6 : shapePass (fun _ => false)
      (flattenPolylineEl (fun x y => applyPoint csx csy ctx cty gsc gox goy h x y))
      (childrenWithTag e .polyline) d5 = some d6)
    (h7 : shapePass (fun _ => false)
      (flattenPolygonEl (fun x y => applyPoint csx csy ctx cty gsc gox goy h x y))
      (childrenWithTag e .polygon) d6 = some d7)
    (c : String) :
    dlookup d7 c =
      (childrenWithTag e .path).flatMap (fun el =>
        if strokeOf el = c then
          shapeFlattenTot pp mcos msin mpi (csx, csy, ctx, cty) gsc gox goy h el else []) ++
      ((childrenWithTag e .line).flatMap (fun el =>
        if strokeOf el = c then
          shapeFlattenTot pp mcos msin mpi (csx, csy, ctx, cty) gsc gox goy h el else []) ++
      ((childrenWithTag e .rect).flatMap (fun el =>
        if strokeOf el = c then
          shapeFlattenTot pp mcos msin mpi (csx, csy, ctx, cty) gsc gox goy h el else []) ++
      ((childrenWithTag e .circle).flatMap (fun el =>
        if strokeOf el = c then
          shapeFlattenTot pp mcos msin mpi (csx, csy, ctx, cty) gsc gox goy h el else []) ++
      ((childrenWithTag e .ellipse).flatMap (fun el =>
        if strokeOf el = c then
          shapeFlattenTot pp mcos msin mpi (csx, csy, ctx, cty) gsc gox goy h el else []) ++
      ((childrenWithTag e .polyline).flatMap (fun el =>
        if strokeOf el = c then
          shapeFlattenTot pp mcos msin mpi (csx, csy, ctx, cty) gsc gox goy h el else []) ++
      (childrenWithTag e .polygon).flatMap (fun el =>
        if strokeOf el = c then
          shapeFlattenTot pp mcos msin mpi (csx, csy, ctx, cty) gsc gox goy h el
        else [])))))) := by
  rw [shapePass_dlookup h7 c, shapePass_dlookup h6 c, shapePass_dlookup h5 c,
    shapePass_dlookup h4 c, shapePass_dlookup h3 c, shapePass_dlookup h2 c,
    shapePass_dlookup h1 c]
  rw [passContrib_eq _ _
    (fun el => shapeFlattenTot pp mcos msin mpi (csx, csy, ctx, cty) gsc gox goy h el) c _
    (fun el hmem => by simp [shapeFlattenTot, tag_of_mem_childrenWithTag hmem])]
  rw [passContrib_eq _ _
    (fun el => shapeFlattenTot pp mcos msin mpi (csx, csy, ctx, cty) gsc gox goy h el) c _
    (fun el hmem => by simp [shapeFlattenTot, tag_of_mem_childrenWithTag hmem])]
  rw [passContrib_eq _ _
    (fun el => shapeFlattenTot pp mcos msin mpi (csx, csy, ctx, cty) gsc gox goy h el) c _
    (fun el hmem => by simp [shapeFlattenTot, tag_of_mem_childrenWithTag hmem])]
  rw [passContrib_eq _ _
    (fun el => shapeFlattenTot pp mcos msin mpi (csx, csy, ctx, cty) gsc gox goy h el) c _
    (fun el hmem => by simp [shapeFlattenTot, tag_of_mem_childrenWithTag hmem])]
  rw [passContrib_eq _ _
    (fun el => shapeFlattenTot pp mcos msin mpi (csx, csy, ctx, cty) gsc gox goy h el) c _
    (fun el hmem => by simp [shapeFlattenTot, tag_of_mem_childrenWithTag hmem])]
  rw [passContrib_eq _ _
    (fun el => shapeFlattenTot pp mcos msin mpi (csx, csy, ctx, cty) gsc gox goy h el) c _
    (fun el hmem => by simp [shapeFlattenTot, tag_of_mem_childrenWithTag hmem])]
  rw [passContrib_eq _ _
    (fun el => shapeFlattenTot pp mcos msin mpi (csx, csy, ctx, cty) gsc gox goy h el) c _
    (fun el hmem => by simp [shapeFlattenTot, tag_of_mem_childrenWithTag hmem])]
  simp [dlookup, List.append_assoc]

theorem walk_aux (pp : String → List PySeg) (mcos msin : ℚ → ℚ) (mpi : ℚ) :
    ∀ (n : ℕ) (e : Elem), sizeOf e ≤ n →
      ∀ (pt : ℚ × ℚ × ℚ × ℚ) (gsc gox goy h : ℚ) (d : ColorDict),
        extract_paths_recursive pp mcos msin mpi e pt gsc gox goy h = some d →
        ((d.map (·.1)).Nodup ∧
          ∀ c, dlookup d c = tagPassPathsFor pp mcos msin mpi c e pt gsc gox goy h) := by
  intro n
  induction n with
  | zero =>
    intro e he
    exact absurd he (by have := zero_lt_sizeOf_elem e; omega)
  | succ n ihn =>
    intro e he pt gsc gox goy h d hw
    rw [extract_paths_recursive] at hw
    split at hw
    · exact absurd hw (by simp)
    rename_i lt' lsx lsy ltx lty hpt
    simp only at hw
    split at hw
    · exact absurd hw (by simp)
    rename_i d1 h1
    split at hw
    · exact absurd hw (by simp)
    rename_i d2 h2
    split at hw
    · exact absurd hw (by simp)
    rename_i d3 h3
    split at hw
    · exact absurd hw (by simp)
    rename_i d4 h4
    split at hw
    · exact absurd hw (by simp)
    rename_i d5 h5
    split at hw
    · exact absurd hw (by simp)
    rename_i d6 h6
    split at hw
    · exact absurd hw (by simp)
    rename_i d7 h7
    have hn1 := shapePass_nodup_keys h1 (by simp)
    have hn2 := shapePass_nodup_keys h2 hn1
    have hn3 := shapePass_nodup_keys h3 hn2
    have hn4 := shapePass_nodup_keys h4 hn3
    have hn5 := shapePass_nodup_keys h5 hn4
    have hn6 := shapePass_nodup_keys h6 hn5
    have hn7 := shapePass_nodup_keys h7 hn6
    have hgs : ∀ g ∈ childrenWithTag e Tag.g, sizeOf g ≤ n := by
      intro g hg
      have := sizeOf_child_lt (List.mem_filter.mp hg).1
      omega
    have hgf := groupsFold_aux pp mcos msin mpi n (fun e' he' => ihn e' (by omega))
      (childrenWithTag e Tag.g) hgs _ gsc gox goy h d7 d hw hn7
    refine ⟨hgf.1, fun c => ?_⟩
    rw [hgf.2 c, sevenPasses pp mcos msin mpi _ _ _ _ gsc gox goy h e h1 h2 h3 h4 h5 h6 h7 c]
    have hct : composeTransform pt e =
        (pt.1 * lsx, pt.2.1 * lsy, pt.1 * ltx + pt.2.2.1, pt.2.1 * lty + pt.2.2.2) := by
      simp [composeTransform, hpt]
    simp only [tagPassPathsFor, hct]
    simp [List.append_assoc]

theorem mem_insertByKey {key : String → ℤ} {a y : String} :
    ∀ {l : List String}, y ∈ insertByKey key a l ↔ y = a ∨ y ∈ l := by
  intro l
  induction l with
  | nil => simp [insertByKey]
  | cons b t ih =>
    by_cases hab : key a ≤ key b
    · simp [insertByKey, hab]
    · simp only [insertByKey, if_neg hab, List.mem_cons, ih]
      tauto

theorem insertByKey_sorted (key : String → ℤ) (a : String) :
    ∀ {l : List String}, l.Pairwise (fun x y => key x ≤ key y) →
      (insertByKey key a l).Pairwise (fun x y => key x ≤ key y) := by
  intro l
  induction l with
  | nil => intro _; simp [insertByKey]
  | cons b t ih =>
    intro hp
    rw [List.pairwise_cons] at hp
    by_cases hab : key a ≤ key b
    · simp only [insertByKey, if_pos hab]
      rw [List.pairwise_cons]
      refine ⟨?_, List.pairwise_cons.mpr hp⟩
      intro y hy
      rcases List.mem_cons.mp hy with h | h
      · subst h; exact hab
      · exact le_trans hab (hp.1 y h)
    · simp only [insertByKey, if_neg hab]
      rw [List.pairwise_cons]
      refine ⟨?_, ih hp.2⟩
      intro y hy
      rcases mem_insertByKey.mp hy with h | h
      · subst h; exact le_of_lt (not_le.mp hab)
      · exact hp.1 y h

theorem sortByKey_sorted (key : String → ℤ) :
    ∀ (l : List String), (sortByKey key l).Pairwise (fun x y => key x ≤ key y) := by
  intro l
  induction l with
  | nil => simp [sortByKey]
  | cons a t ih => exact insertByKey_sorted key a ih

theorem insertByKey_filter (key : String → ℤ) (a : String) (v : ℤ) :
    ∀ (l : List String),
      (insertByKey key a l).filter (fun x => key x = v) =
        (a :: l).filter (fun x => key x = v) := by
  intro l
  induction l with
  | nil => rfl
  | cons b t ih =>
    by_cases hab : key a ≤ key b
    · simp [insertByKey, hab]
    · have hba : key b < key a := not_le.mp hab
      simp only [insertByKey, if_neg hab]
      by_cases hbv : key b = v
      · have hav : ¬ key a = v := by omega
        simp only [List.filter_cons]
        simp only [decide_eq_true_eq] at *
        simp [hbv, hav, ih, List.filter_cons]
      · simp only [List.filter_cons]
        simp only [decide_eq_true_eq] at *
        by_cases hav : key a = v
        · simp [hbv, hav, ih, List.filter_cons]
        · simp [hbv, hav, ih, List.filter_cons]

theorem sortByKey_filter (key : String → ℤ) (v : ℤ) :
    ∀ (l : List String),
      (sortByKey key l).filter (fun x => key x = v) = l.filter (fun x => key x = v) := by
  intro l
  induction l with
  | nil => rfl
  | cons a t ih =>
    show (insertByKey key a (sortByKey key t)).filter _ = _
    rw [insertByKey_filter]
    simp only [List.filter_cons]
    rw [ih]

theorem pairwise_filterMap_of {α β : Type} {R : β → β → Prop} {S : α → α → Prop}
    (f : α → Option β) :
    ∀ {l : List α}, l.Pairwise S →
      (∀ a b, S a b → ∀ x, f a = some x → ∀ y, f b = some y → R x y) →
      (l.filterMap f).Pairwise R := by
  intro l
  induction l with
  | nil => intro _ _; simp
  | cons a t ih =>
    intro hp hf
    rw [List.pairwise_cons] at hp
    rw [List.filterMap_cons]
    cases hfa : f a with
    | none => exact ih hp.2 hf
    | some x =>
      rw [List.pairwise_cons]
      refine ⟨?_, ih hp.2 hf⟩
      intro y hy
      obtain ⟨b, hbt, hfb⟩ := List.mem_filterMap.mp hy
      exact hf a b (hp.1 b hbt) x hfa y hfb

theorem filter_filterMap_comm {α β : Type} (f : α → Option β) (p : β → Bool) (q : α → Bool)
    (hpq : ∀ a b, f a = some b → p b = q a) :
    ∀ (l : List α), (l.filterMap f).filter p = (l.filter q).filterMap f := by
  intro l
  induction l with
  | nil => rfl
  | cons a t ih =>
    cases hfa : f a with
    | none =>
      by_cases hq : q a
      · simp [List.filterMap_cons, hfa, List.filter_cons, hq, ih]
      · simp [List.filterMap_cons, hfa, List.filter_cons, hq, ih]
    | some b =>
      have hpb : p b = q a := hpq a b hfa
      by_cases hq : q a
      · rw [hq] at hpb
        simp [List.filterMap_cons, hfa, List.filter_cons, hq, hpb, ih]
      · have hqf : q a = false := by simpa using hq
        rw [hqf] at hpb
        simp [List.filterMap_cons, hfa, List.filter_cons, hq, hpb, ih]

theorem filterMap_map_eq {α β γ : Type} (f : α → Option β) (m : β → γ) (g : α → γ) :
    ∀ (l : List α), (∀ a ∈ l, ∃ b, f a = some b ∧ m b = g a) →
      ((l.filterMap f).map m) = l.map g := by
  intro l
  induction l with
  | nil => intro _; rfl
  | cons a t ih =>
    intro hall
    obtain ⟨b, hfa, hmb⟩ := hall a (List.mem_cons_self a t)
    rw [List.filterMap_cons, hfa, List.map_cons, List.map_cons, hmb,
      ih (fun x hx => hall x (List.mem_cons_of_mem a hx))]

theorem filter_and_split (p r : String → Bool) :
    ∀ (l : List String), l.filter (fun a => p a && r a) = (l.filter p).filter r := by
  intro l
  induction l with
  | nil => rfl
  | cons a t ih =>
    by_cases hp : p a
    · by_cases hr : r a
      · simp [List.filter_cons, hp, hr, ih]
      · simp [List.filter_cons, hp, hr, ih]
    · simp [List.filter_cons, hp, ih]


/-! ## Claim theorems -/

/-- C1, counterexample.  The document whose root has a `<rect>` child followed
by a `<line>` child, both stroked `"red"`: document order is rect before
line, but the walker's `<line>` pass runs before its `<rect>` pass, so the
accumulated list for `"red"` holds the line's 2-point path before the rect's
5-point path — not the document order the claim asserts. -/
theorem walker_order_counterexample :
    Option.map (fun d => dlookup d "red")
      (extract_paths_recursive (fun _ => []) (fun _ => 0) (fun _ => 0) 0
        ⟨.other, [], [⟨.rect, [("stroke", "red")], []⟩, ⟨.line, [("stroke", "red")], []⟩]⟩
        (1, 1, 0, 0) 1 0 0 0) ≠
      some (docOrderPathsFor (fun _ => []) (fun _ => 0) (fun _ => 0) 0 "red"
        ⟨.other, [], [⟨.rect, [("stroke", "red")], []⟩, ⟨.line, [("stroke", "red")], []⟩]⟩
        (1, 1, 0, 0) 1 0 0 0) := by
  intro hcontra
  have h1 : Option.map (fun d => (dlookup d "red").map List.length)
      (extract_paths_recursive (fun _ => []) (fun _ => 0) (fun _ => 0) 0
        ⟨.other, [], [⟨.rect, [("stroke", "red")], []⟩, ⟨.line, [("stroke", "red")], []⟩]⟩
        (1, 1, 0, 0) 1 0 0 0) = some [2, 5] := by
    simp +decide [extract_paths_recursive, groupsFold, parse_transform, childrenWithTag,
      shapePass, ensureKey, dictExtend, dlookup, mergeDict, getAttr, getFloatAttr,
      flattenLineEl, flattenRectEl, applyPoint, strokeOf, pathSkip]
  have h2 : (docOrderPathsFor (fun _ => []) (fun _ => 0) (fun _ => 0) 0 "red"
      ⟨.other, [], [⟨.rect, [("stroke", "red")], []⟩, ⟨.line, [("stroke", "red")], []⟩]⟩
      (1, 1, 0, 0) 1 0 0 0).map List.length = [5, 2] := by
    simp +decide [docOrderPathsFor, docOrderChildren, composeTransform, parse_transform,
      shapeFlattenTot, strokeOf, getAttr, getFloatAttr, flattenLineEl, flattenRectEl,
      applyPoint]
  have h3 := congrArg (Option.map (List.map List.length)) hcontra
  rw [Option.map_map] at h3
  simp only [Option.map_some'] at h3
  rw [h2] at h3
  have h4 : Option.map (List.map List.length ∘ fun d => dlookup d "red")
      (extract_paths_recursive (fun _ => []) (fun _ => 0) (fun _ => 0) 0
        ⟨.other, [], [⟨.rect, [("stroke", "red")], []⟩, ⟨.line, [("stroke", "red")], []⟩]⟩
        (1, 1, 0, 0) 1 0 0 0) = some [2, 5] := by
    rw [show (List.map List.length ∘ fun d => dlookup d "red") =
      (fun d => (dlookup d "red").map List.length) from rfl]
    exact h1
  rw [h4] at h3
  simp at h3

/-- C1, amended.  For every document element, color key and successful run,
the walker's accumulated path list for that color is: the element's own
shapes flattened in the seven fixed tag passes (`path`, `line`, `rect`,
`circle`, `ellipse`, `polyline`, `polygon`; document order within each pass),
followed by the contributions of its `<g>` children in the groups' document
order — appended without any reordering within the color. -/
theorem walker_tag_pass_order (pp : String → List PySeg) (mcos msin : ℚ → ℚ) (mpi : ℚ)
    (e : Elem) (pt : ℚ × ℚ × ℚ × ℚ) (gsc gox goy h : ℚ) (d : ColorDict)
    (hw : extract_paths_recursive pp mcos msin mpi e pt gsc gox goy h = some d)
    (c : String) :
    dlookup d c = tagPassPathsFor pp mcos msin mpi c e pt gsc gox goy h :=
  (walk_aux pp mcos msin mpi (sizeOf e) e le_rfl pt gsc gox goy h d hw).2 c

/-- Witness for `walker_tag_pass_order` at the two-shape document. -/
theorem walker_tag_pass_order_witness :
    (extract_paths_recursive (fun _ => []) (fun _ => 0) (fun _ => 0) 0
      ⟨.other, [], [⟨.rect, [("stroke", "red")], []⟩, ⟨.line, [("stroke", "red")], []⟩]⟩
      (1, 1, 0, 0) 1 0 0 0 =
        some [("red", [[(0, 0), (0, 0)], [(0, 0), (0, 0), (0, 0), (0, 0), (0, 0)]])]) ∧
    dlookup [("red", [[(0, 0), (0, 0)], [(0, 0), (0, 0), (0, 0), (0, 0), (0, 0)]])] "red" =
      tagPassPathsFor (fun _ => []) (fun _ => 0) (fun _ => 0) 0 "red"
        ⟨.other, [], [⟨.rect, [("stroke", "red")], []⟩, ⟨.line, [("stroke", "red")], []⟩]⟩
        (1, 1, 0, 0) 1 0 0 0 := by
  have hw : extract_paths_recursive (fun _ => []) (fun _ => 0) (fun _ => 0) 0
      ⟨.other, [], [⟨.rect, [("stroke", "red")], []⟩, ⟨.line, [("stroke", "red")], []⟩]⟩
      (1, 1, 0, 0) 1 0 0 0 =
        some [("red", [[(0, 0), (0, 0)], [(0, 0), (0, 0), (0, 0), (0, 0), (0, 0)]])] := by
    simp +decide [extract_paths_recursive, groupsFold, parse_transform, childrenWithTag,
      shapePass, ensureKey, dictExtend, mergeDict, getAttr, getFloatAttr, List.lookup,
      flattenLineEl, flattenRectEl, applyPoint, strokeOf, pathSkip]
  exact ⟨hw, walker_tag_pass_order _ _ _ _ _ _ _ _ _ _ _ hw "red"⟩

/-- C2, counterexample.  `"scale(abc)"` matches the `scale` pattern, so
`float("abc")` is attempted and raises `ValueError` (modelled by `none`):
the result is not the identity and the parse is not error-free. -/
theorem parse_transform_scale_abc_counterexample :
    parse_transform "scale(abc)" = none ∧
      parse_transform "scale(abc)" ≠ some (1, 1, 0, 0) := by
  have h1 : parse_transform "scale(abc)" = none := by
    simp +decide [parse_transform, applyScale, applyTranslate, applyMatrix,
      searchScale, searchTranslate, searchMatrix, twoArgMatch, groupNoCommaParen,
      pyFloat, pyStripList, readSign, decDigitsAux]
  exact ⟨h1, by rw [h1]; simp⟩

/-- C2, amended.  An absent/empty transform string, or one in which none of
the three recognised patterns (`scale(...)`, `translate(...)`,
`matrix(...)`) matches, parses to the identity `(1, 1, 0, 0)` without
raising; but a matched pattern whose captured content fails `float`
conversion raises `ValueError` (see the counterexample). -/
theorem parse_transform_no_match_identity (s : String)
    (h1 : searchScale s.toList = none) (h2 : searchTranslate s.toList = none)
    (h3 : searchMatrix s.toList = none) :
    parse_transform s = some (1, 1, 0, 0) := by
  simp only [String.toList] at h1 h2 h3
  by_cases hs : s = ""
  · simp [parse_transform, hs]
  · simp [parse_transform, hs, applyScale, applyTranslate, applyMatrix, String.toList,
      h1, h2, h3]

/-- Witness for `parse_transform_no_match_identity` at `"rotate(45) skewX(3)"`. -/
theorem parse_transform_no_match_identity_witness :
    searchScale "rotate(45) skewX(3)".toList = none ∧
    searchTranslate "rotate(45) skewX(3)".toList = none ∧
    searchMatrix "rotate(45) skewX(3)".toList = none ∧
    parse_transform "rotate(45) skewX(3)" = some (1, 1, 0, 0) :=
  ⟨by decide, by decide, by decide,
    parse_transform_no_match_identity _ (by decide) (by decide) (by decide)⟩

/-- C10.  Whenever the `matrix` pattern matches anywhere in the transform
string and the overall parse succeeds, the parsed result is exactly
`(a, d, e, f)` from the matrix groups 1, 4, 5, 6 — the matrix stage runs
last and overwrites whatever the `scale`/`translate` stages produced,
regardless of where the forms stand in the string. -/
theorem matrix_overrides (s : String) (st : ℚ × ℚ × ℚ × ℚ)
    (g1 g2 g3 g4 g5 g6 : String) (a d e f : ℚ)
    (hm : searchMatrix s.toList = some [g1, g2, g3, g4, g5, g6])
    (ha : pyFloat g1 = some a) (hd : pyFloat g4 = some d)
    (he : pyFloat g5 = some e) (hf : pyFloat g6 = some f)
    (hp : parse_transform s = some st) :
    st = (a, d, e, f) := by
  have hs : ¬ s = "" := by
    intro h
    rw [h] at hm
    rw [show ("" : String).toList = [] from rfl] at hm
    simp [searchMatrix] at hm
  simp only [parse_transform, if_neg hs] at hp
  obtain ⟨st1, hst1, hp⟩ := Option.bind_eq_some.mp hp
  obtain ⟨st2, hst2, hp⟩ := Option.bind_eq_some.mp hp
  rw [applyMatrix, hm] at hp
  simp [ha, hd, he, hf] at hp
  exact hp.symm

/-- Witness for `matrix_overrides`: matrix first, then scale and translate —
the matrix values still win. -/
theorem matrix_overrides_witness :
    searchMatrix "matrix(3,0,0,4,5,6) scale(2) translate(7,8)".toList =
        some ["3", "0", "0", "4", "5", "6"] ∧
    parse_transform "matrix(3,0,0,4,5,6) scale(2) translate(7,8)" = some (3, 4, 5, 6) ∧
    ((3 : ℚ), (4 : ℚ), (5 : ℚ), (6 : ℚ)) = (3, 4, 5, 6) := by
  have hm : searchMatrix "matrix(3,0,0,4,5,6) scale(2) translate(7,8)".toList =
      some ["3", "0", "0", "4", "5", "6"] := by decide
  have hp : parse_transform "matrix(3,0,0,4,5,6) scale(2) translate(7,8)" =
      some (3, 4, 5, 6) := by
    simp +decide [parse_transform, applyScale, applyTranslate, applyMatrix,
      searchScale, searchTranslate, searchMatrix, twoArgMatch, groupNoCommaParen,
      matrixArgsMatch, pyFloat, pyStripList, readSign, decDigitsAux]
  refine ⟨hm, hp, ?_⟩
  exact matrix_overrides _ _ _ _ _ _ _ _ _ _ _ _ hm
    (by simp +decide [pyFloat, pyStripList, readSign, decDigitsAux])
    (by simp +decide [pyFloat, pyStripList, readSign, decDigitsAux])
    (by simp +decide [pyFloat, pyStripList, readSign, decDigitsAux])
    (by simp +decide [pyFloat, pyStripList, readSign, decDigitsAux]) hp

/-- C3, counterexample.  A root element with no `viewBox`, `width` or
`height` attribute: `extract_paths` raises
`ValueError("SVG has no viewBox, width, or height attributes.")` (modelled
by `none`) — it does not substitute a default canvas and produces no job. -/
theorem missing_size_counterexample :
    extract_paths (fun _ => []) (fun _ => 0) (fun _ => 0) 0 ⟨.other, [], []⟩ = none := by
  simp +decide [extract_paths, extract_size, getAttr, falsyAttr, List.lookup]

/-- C3, amended.  When the root's `viewBox` is absent or empty and `width`
or `height` is absent or empty, the conversion raises a `ValueError` to the
caller (no fallback canvas size exists in the code): `extract_paths` fails
for every such root. -/
theorem missing_size_raises (pp : String → List PySeg) (mcos msin : ℚ → ℚ) (mpi : ℚ)
    (root : Elem)
    (hv : falsyAttr (getAttr root "viewBox") = true)
    (hwh : falsyAttr (getAttr root "width") = true ∨
      falsyAttr (getAttr root "height") = true) :
    extract_paths pp mcos msin mpi root = none := by
  have hsz : extract_size root = none := by
    rcases hwh with hw | hh
    · simp [extract_size, hv, hw]
    · simp [extract_size, hv, hh]
  simp [extract_paths, hsz]

/-- Witness for `missing_size_raises` at the attribute-less root. -/
theorem missing_size_raises_witness :
    falsyAttr (getAttr (⟨.other, [], []⟩ : Elem) "viewBox") = true ∧
    extract_paths (fun _ => []) (fun _ => 0) (fun _ => 0) 0 ⟨.other, [], []⟩ = none :=
  ⟨by decide, missing_size_raises _ _ _ _ _ (by decide) (Or.inl (by decide))⟩

/-- C6.  The bed fit is `scale = 50/max(w,h)`, `offsetX = (50 − w·scale)/2`,
`offsetY = (50 − h·scale)/2`; a root with `viewBox="0 0 100 50"` has logical
size `(100, 50)` and fit `scale = 1/2`, `offsetX = 0`, `offsetY = 25/2`. -/
theorem compute_fit_spec :
    (∀ w h : ℚ, 0 < w → 0 < h →
      computeFit w h =
        (50 / max w h, (50 - w * (50 / max w h)) / 2, (50 - h * (50 / max w h)) / 2)) ∧
    extract_size ⟨.other, [("viewBox", "0 0 100 50")], []⟩ = some (100, 50) ∧
    computeFit 100 50 = (1 / 2, 0, 25 / 2) := by
  refine ⟨fun w h _ _ => rfl, ?_, ?_⟩
  · simp +decide [extract_size, getAttr, List.lookup, falsyAttr, pySplitWs, wsSplitAux,
      pyFloat, pyStripList, readSign, decDigitsAux]
  · have hmax : max (100 : ℚ) 50 = 100 := by norm_num
    simp [computeFit, hmax]
    norm_num

/-- Witness for `compute_fit_spec` at `(w, h) = (100, 50)`. -/
theorem compute_fit_spec_witness :
    (0 : ℚ) < 100 ∧ (0 : ℚ) < 50 ∧
    computeFit 100 50 =
      (50 / max 100 50, (50 - 100 * (50 / max 100 50)) / 2,
        (50 - 50 * (50 / max 100 50)) / 2) :=
  ⟨by norm_num, by norm_num, compute_fit_spec.1 100 50 (by norm_num) (by norm_num)⟩

/-- C4, counterexample.  For color `(0, 0, 1)` with `minPower = 0`,
`maxPower = 255`: the code truncates the luminance `0.114` to the integer
`0` before mapping, so it assigns power `255`, while the claimed formula
with real-valued `Y` gives `255 − 0.114 = 254.886`. -/
theorem layer_power_counterexample :
    layerPower (0, 0, 1) 0 255 = 255 ∧
    specClampPower 0 0 1 0 255 = 127443 / 500 ∧
    layerPower (0, 0, 1) 0 255 ≠ specClampPower 0 0 1 0 255 := by
  have hfl : pyTrunc ((299 / 1000 : ℚ) * ((0 : ℤ) : ℚ) + (587 / 1000) * ((0 : ℤ) : ℚ) +
      (114 / 1000) * ((1 : ℤ) : ℚ)) = 0 := by
    rw [pyTrunc, if_pos (by push_cast; norm_num)]
    rw [show ((299 / 1000 : ℚ) * ((0 : ℤ) : ℚ) + (587 / 1000) * ((0 : ℤ) : ℚ) +
        (114 / 1000) * ((1 : ℤ) : ℚ)) = 57 / 500 by push_cast; norm_num]
    rw [Int.floor_eq_iff]
    norm_num
  have h1 : layerPower (0, 0, 1) 0 255 = 255 := by
    simp only [layerPower, hfl]
    norm_num
  have h2 : specClampPower 0 0 1 0 255 = 127443 / 500 := by
    simp only [specClampPower]
    rw [show ((299 / 1000 : ℚ) * 0 + (587 / 1000) * 0 + (114 / 1000) * 1) = 57 / 500 by
      norm_num]
    rw [min_eq_right (by norm_num), max_eq_right (by norm_num)]
    norm_num
  refine ⟨h1, h2, ?_⟩
  rw [h1, h2]
  norm_num

/-- C4, amended.  For channels at most 255 and `minPower ≤ maxPower`, the
assigned power is
`clamp(minPower + (1 − ⌊Y⌋/255)·(maxPower − minPower), minPower, maxPower)`
where `⌊Y⌋` is the luminance `0.299R + 0.587G + 0.114B` truncated to an
integer by Python's `int(...)` (the lower clamp is redundant but holds); in
particular pure white maps exactly to `minPower` and pure black exactly to
`maxPower`. -/
theorem layer_power_formula (R G B : ℕ) (minP maxP : ℚ)
    (hR : R ≤ 255) (hG : G ≤ 255) (hB : B ≤ 255) (hm : minP ≤ maxP) :
    layerPower ((R : ℤ), (G : ℤ), (B : ℤ)) minP maxP =
      max minP (min maxP
        (minP +
          (1 - (⌊(299 / 1000 : ℚ) * (R : ℚ) + (587 / 1000) * (G : ℚ) +
            (114 / 1000) * (B : ℚ)⌋ : ℚ) / 255) * (maxP - minP))) ∧
    layerPower (255, 255, 255) minP maxP = minP ∧
    layerPower (0, 0, 0) minP maxP = maxP := by
  refine ⟨?_, ?_, ?_⟩
  · have hcast : ((299 / 1000 : ℚ) * (((R : ℤ) : ℚ)) + (587 / 1000) * (((G : ℤ) : ℚ)) +
        (114 / 1000) * (((B : ℤ) : ℚ))) =
        (299 / 1000 : ℚ) * (R : ℚ) + (587 / 1000) * (G : ℚ) + (114 / 1000) * (B : ℚ) := by
      push_cast
      ring
    have hL0 : (0 : ℚ) ≤ (299 / 1000 : ℚ) * (R : ℚ) + (587 / 1000) * (G : ℚ) +
        (114 / 1000) * (B : ℚ) := by positivity
    have hL255 : (299 / 1000 : ℚ) * (R : ℚ) + (587 / 1000) * (G : ℚ) +
        (114 / 1000) * (B : ℚ) ≤ 255 := by
      have hRq : (R : ℚ) ≤ 255 := by exact_mod_cast hR
      have hGq : (G : ℚ) ≤ 255 := by exact_mod_cast hG
      have hBq : (B : ℚ) ≤ 255 := by exact_mod_cast hB
      nlinarith
    have hflq : ((⌊(299 / 1000 : ℚ) * (R : ℚ) + (587 / 1000) * (G : ℚ) +
        (114 / 1000) * (B : ℚ)⌋ : ℚ)) ≤ 255 := by
      calc ((⌊(299 / 1000 : ℚ) * (R : ℚ) + (587 / 1000) * (G : ℚ) +
            (114 / 1000) * (B : ℚ)⌋ : ℚ))
          ≤ _ := Int.floor_le _
        _ ≤ 255 := hL255
    simp only [layerPower, pyTrunc, hcast, if_pos hL0]
    have hinner : minP ≤ minP +
        (1 - (⌊(299 / 1000 : ℚ) * (R : ℚ) + (587 / 1000) * (G : ℚ) +
          (114 / 1000) * (B : ℚ)⌋ : ℚ) / 255) * (maxP - minP) := by
      have hfac : (0 : ℚ) ≤ 1 - (⌊(299 / 1000 : ℚ) * (R : ℚ) + (587 / 1000) * (G : ℚ) +
          (114 / 1000) * (B : ℚ)⌋ : ℚ) / 255 := by
        have : (⌊(299 / 1000 : ℚ) * (R : ℚ) + (587 / 1000) * (G : ℚ) +
            (114 / 1000) * (B : ℚ)⌋ : ℚ) / 255 ≤ 1 := by
          rw [div_le_one (by norm_num)]
          exact hflq
        linarith
      nlinarith
    rw [max_eq_right (le_min hm hinner)]
  · have hlum : ((299 / 1000 : ℚ) * (((255 : ℤ) : ℚ)) + (587 / 1000) * (((255 : ℤ) : ℚ)) +
        (114 / 1000) * (((255 : ℤ) : ℚ))) = 255 := by
      push_cast
      norm_num
    have hfl : pyTrunc ((299 / 1000 : ℚ) * (((255 : ℤ) : ℚ)) +
        (587 / 1000) * (((255 : ℤ) : ℚ)) + (114 / 1000) * (((255 : ℤ) : ℚ))) = 255 := by
      rw [pyTrunc, if_pos (by rw [hlum]; norm_num), hlum]
      rw [show (255 : ℚ) = ((255 : ℤ) : ℚ) by norm_num, Int.floor_intCast]
    simp only [layerPower, hfl]
    rw [show (1 : ℚ) - ((255 : ℤ) : ℚ) / 255 = 0 by norm_num]
    rw [zero_mul, add_zero, min_eq_right hm]
  · have hfl : pyTrunc ((299 / 1000 : ℚ) * (((0 : ℤ) : ℚ)) +
        (587 / 1000) * (((0 : ℤ) : ℚ)) + (114 / 1000) * (((0 : ℤ) : ℚ))) = 0 := by
      rw [pyTrunc, if_pos (by push_cast; norm_num)]
      rw [show ((299 / 1000 : ℚ) * (((0 : ℤ) : ℚ)) + (587 / 1000) * (((0 : ℤ) : ℚ)) +
        (114 / 1000) * (((0 : ℤ) : ℚ))) = 0 by push_cast; norm_num]
      exact Int.floor_zero
    simp only [layerPower, hfl]
    rw [show (1 : ℚ) - ((0 : ℤ) : ℚ) / 255 = 1 by norm_num]
    rw [one_mul, add_sub_cancel, min_self]

/-- Witness for `layer_power_formula` at `(R, G, B) = (10, 20, 30)`,
`minPower = 10`, `maxPower = 80`. -/
theorem layer_power_formula_witness :
    (10 : ℕ) ≤ 255 ∧ (10 : ℚ) ≤ 80 ∧
    layerPower (255, 255, 255) 10 80 = 10 ∧ layerPower (0, 0, 0) 10 80 = 80 :=
  ⟨by norm_num, by norm_num,
    (layer_power_formula 10 20 30 10 80 (by norm_num) (by norm_num) (by norm_num)
      (by norm_num)).2.1,
    (layer_power_formula 10 20 30 10 80 (by norm_num) (by norm_num) (by norm_num)
      (by norm_num)).2.2⟩

/-- C7.  Flattening `<circle cx="0" cy="0" r="10">` under the identity local
transform and the identity bed transform (`scale = 1`, offsets `0`, `h = 0`)
gives a closed path of exactly 37 points (36 segments plus the repeated
start): the first and last points are equal, and every point — hence the
maximum — lies at distance exactly 10 from the origin (exact real
trigonometry; the float evaluation agrees within floating-point
tolerance). -/
theorem circle_flatten_closed_37 :
    (flatten_circle Real.cos Real.sin Real.pi 0 0 10 1 1 0 0 1 0 0 0).length = 37 ∧
    flatten_circle Real.cos Real.sin Real.pi 0 0 10 1 1 0 0 1 0 0 0 ≠ [] ∧
    (flatten_circle Real.cos Real.sin Real.pi 0 0 10 1 1 0 0 1 0 0 0).head? =
      (flatten_circle Real.cos Real.sin Real.pi 0 0 10 1 1 0 0 1 0 0 0).getLast? ∧
    ∀ p ∈ flatten_circle Real.cos Real.sin Real.pi 0 0 10 1 1 0 0 1 0 0 0,
      p.1 ^ 2 + p.2 ^ 2 = 10 ^ 2 := by
  have hhead : (flatten_circle Real.cos Real.sin Real.pi (0 : ℝ) 0 10 1 1 0 0 1 0 0 0).head? =
      some (10, 0) := by
    rw [flatten_circle, List.range_succ_eq_map]
    simp only [List.map_cons, List.head?_cons]
    norm_num [applyPoint, Real.cos_zero, Real.sin_zero]
  have hlast : (flatten_circle Real.cos Real.sin Real.pi (0 : ℝ) 0 10 1 1 0 0 1 0 0 0).getLast? =
      some (10, 0) := by
    rw [flatten_circle, List.range_succ, List.map_append]
    simp only [List.map_cons, List.map_nil]
    rw [List.getLast?_concat]
    have hang : 2 * Real.pi * ((36 : ℕ) : ℝ) / 36 = 2 * Real.pi := by
      push_cast
      ring
    rw [hang]
    norm_num [applyPoint, Real.cos_two_pi, Real.sin_two_pi]
  refine ⟨by simp [flatten_circle], ?_, ?_, ?_⟩
  · intro hnil
    have := congrArg List.length hnil
    simp [flatten_circle] at this
  · rw [hhead, hlast]
  · intro p hp
    rw [flatten_circle] at hp
    obtain ⟨i, _hi, rfl⟩ := List.mem_map.mp hp
    simp only [applyPoint]
    have key := Real.sin_sq_add_cos_sq (2 * Real.pi * ((i : ℕ) : ℝ) / 36)
    ring_nf at key ⊢
    nlinarith [key]

/-- C5, counterexample.  A dictionary holding a white layer and a black
layer: the planner emits the black layer (RGB sum 0) first and the white
layer (RGB sum 765) last — ascending by sum is darkest-first, so the
claim's parenthetical "lightest first" does not hold on the code. -/
theorem layer_order_counterexample :
    (svg_to_rd_plan [("white", [[(0, 0)]]), ("black", [[(1, 1)]])] 10 80 300).map
        (fun l => l.color) = [(0, 0, 0), (255, 255, 255)] ∧
    rgbSum ((0, 0, 0) : ℤ × ℤ × ℤ) < rgbSum ((255, 255, 255) : ℤ × ℤ × ℤ) := by
  constructor
  · simp +decide [svg_to_rd_plan, sortByKey, insertByKey, dlookup, List.lookup, rgbSum]
  · decide

set_option maxHeartbeats 1600000 in
/-- C5, amended.  For every dictionary and configuration, the planner's
layer list is sorted ascending by the RGB sum of each layer's resolved color
(so darkest first, lightest last — the spec's "lightest first" gloss has the
direction backwards), and for every sum value the layers with that sum
appear exactly in first-encountered (dictionary insertion) order, carrying
their color and their untouched path lists: Python's `sorted` is a stable
ascending sort over the insertion-ordered keys, and colors with empty path
lists are skipped. -/
theorem layer_order_ascending_stable (pbc : ColorDict) (mp Mp sp : ℚ) :
    (svg_to_rd_plan pbc mp Mp sp).Pairwise
        (fun l1 l2 => rgbSum l1.color ≤ rgbSum l2.color) ∧
    ∀ v : ℤ,
      ((svg_to_rd_plan pbc mp Mp sp).filter
          (fun l => rgbSum l.color = v)).map (fun l => (l.color, l.paths)) =
        ((pbc.map (·.1)).filter
            (fun k => rgbSum (hex_to_rgb k) = v ∧ dlookup pbc k ≠ [])).map
          (fun k => (hex_to_rgb k, dlookup pbc k)) := by
  constructor
  · simp only [svg_to_rd_plan]
    apply pairwise_filterMap_of _ (sortByKey_sorted _ _)
    intro a b hab x hx y hy
    by_cases ha : dlookup pbc a = []
    · rw [if_pos ha] at hx
      exact absurd hx (by simp)
    · by_cases hb : dlookup pbc b = []
      · rw [if_pos hb] at hy
        exact absurd hy (by simp)
      · rw [if_neg ha] at hx
        rw [if_neg hb] at hy
        injection hx with hx
        injection hy with hy
        subst hx
        subst hy
        exact hab
  · intro v
    simp only [svg_to_rd_plan]
    rw [filter_filterMap_comm
      (fun color_hex =>
        if dlookup pbc color_hex = [] then none
        else some ({ paths := dlookup pbc color_hex, speed := sp,
                     power := (layerPower (hex_to_rgb color_hex) mp Mp,
                               layerPower (hex_to_rgb color_hex) mp Mp),
                     color := hex_to_rgb color_hex } : RdLayer))
      (fun (l : RdLayer) => decide (rgbSum l.color = v))
      (fun k => decide (rgbSum (hex_to_rgb k) = v ∧ dlookup pbc k ≠ []))
      ?_ (sortByKey (fun k => rgbSum (hex_to_rgb k)) (pbc.map (·.1)))]
    · have hq : (fun k => decide (rgbSum (hex_to_rgb k) = v ∧ dlookup pbc k ≠ [])) =
          (fun k => decide (rgbSum (hex_to_rgb k) = v) &&
            decide (dlookup pbc k ≠ [])) := by
        funext k
        by_cases h1 : rgbSum (hex_to_rgb k) = v <;> by_cases h2 : dlookup pbc k = [] <;>
          simp [h1, h2]
      rw [hq, filter_and_split, sortByKey_filter, ← filter_and_split, ← hq]
      apply filterMap_map_eq
      intro k hk
      have hki := List.mem_filter.mp hk
      have hkp : rgbSum (hex_to_rgb k) = v ∧ dlookup pbc k ≠ [] := by
        simpa using hki.2
      refine ⟨{ paths := dlookup pbc k, speed := sp,
                power := (layerPower (hex_to_rgb k) mp Mp, layerPower (hex_to_rgb k) mp Mp),
                color := hex_to_rgb k }, ?_, rfl⟩
      rw [if_neg hkp.2]
    · intro a b hab
      simp only at hab ⊢
      by_cases ha : dlookup pbc a = []
      · rw [if_pos ha] at hab
        exact absurd hab (by simp)
      · rw [if_neg ha] at hab
        injection hab with hab
        subst hab
        by_cases hv : rgbSum (hex_to_rgb a) = v <;> simp [hv, ha]

/-- C8, counterexample.  `"+1+2+3"` is neither a recognised color name nor a
valid hex triplet, yet it does not resolve to white: the canonical form has
length 6 and Python's `int(·, 16)` accepts each signed 2-character group, so
the code resolves it to `(1, 2, 3)`. -/
theorem hex_to_rgb_counterexample :
    hex_to_rgb "+1+2+3" = (1, 2, 3) ∧ ((1 : ℤ), (2 : ℤ), (3 : ℤ)) ≠ (255, 255, 255) :=
  ⟨by decide, by decide⟩

set_option maxHeartbeats 2000000 in
/-- C8, amended.  Color resolution is total (the model is a total function:
every parse failure is caught and falls back to white): recognised names and
valid hex triplets, case-insensitive and with or without leading `#`,
resolve to their RGB values; every string whose canonical form (after name
lookup, `#`-stripping and 3→6 expansion) does not have length 6 resolves to
white, as do length-6 forms whose 2-character groups fail `int(·, 16)`; but
length-6 forms whose groups carry signs or blanks that Python's `int(·, 16)`
accepts (e.g. `"+1+2+3"`) resolve to the parsed values instead of white. -/
theorem hex_to_rgb_resolution :
    (∀ s : String, (hexCanon s).length ≠ 6 → hex_to_rgb s = (255, 255, 255)) ∧
    hex_to_rgb "red" = (255, 0, 0) ∧ hex_to_rgb "navy" = (0, 0, 128) ∧
    hex_to_rgb "#FF8000" = (255, 128, 0) ∧ hex_to_rgb "aBc" = (170, 187, 204) ∧
    hex_to_rgb "##00ff00" = (0, 255, 0) ∧
    hex_to_rgb "not-a-color" = (255, 255, 255) ∧ hex_to_rgb "" = (255, 255, 255) ∧
    hex_to_rgb "none" = (255, 255, 255) ∧ hex_to_rgb "#12345" = (255, 255, 255) ∧
    hex_to_rgb "+1+2+3" = (1, 2, 3) := by
  refine ⟨fun s h => ?_, by decide, by decide, by decide, by decide, by decide, by decide,
    by decide, by decide, by decide, by decide⟩
  simp only [hex_to_rgb, if_pos h]

/-- Witness for `hex_to_rgb_resolution` at `"abcd"` (canonical length 4). -/
theorem hex_to_rgb_resolution_witness :
    (hexCanon "abcd").length ≠ 6 ∧ hex_to_rgb "abcd" = (255, 255, 255) :=
  ⟨by decide, hex_to_rgb_resolution.1 "abcd" (by decide)⟩

/-- C9.  Two conversions of the same document with configurations differing
only in `speed` produce layer lists with identical geometry, power and color
in every position: the walker takes no configuration at all, and the planner
copies `speed` only into the layer's `speed` field. -/
theorem speed_independence (pp : String → List PySeg) (mcos msin : ℚ → ℚ) (mpi : ℚ)
    (root : Elem) (min_power max_power s1 s2 : ℚ) :
    (svg_to_rd_job pp mcos msin mpi root min_power max_power s1).map
        (List.map layerObservables) =
      (svg_to_rd_job pp mcos msin mpi root min_power max_power s2).map
        (List.map layerObservables) := by
  unfold svg_to_rd_job
  cases extract_paths pp mcos msin mpi root with
  | none => rfl
  | some pbc =>
    simp only [Option.map_some']
    congr 1
    unfold svg_to_rd_plan
    rw [List.map_filterMap, List.map_filterMap]
    congr 1
    funext k
    by_cases hk : dlookup pbc k = [] <;> simp [hk, layerObservables]



end SvgRd
